import Mathlib

/-!
Shallow embedding of the buildmydotapi orchestration pipeline.

Strings from the JavaScript source are modelled as `List Char`; every JS
string operation used by the embedded functions (regex replaces, `slice`,
`trim`, `path.join`, ...) is spelled out over `List Char` so that every
definition is executable and a concrete input can be evaluated by `decide`
or `rfl`.

Sources embedded here:
  - src/system/writer.mjs        (writeProjectFiles)
  - src/projects/registry.mjs    (load / registerProject / listProjects / findProject)
  - src/system/tester.mjs        (testEndpoint classification)
  - src/ai/client.mjs            (sendMessage retry loop, extractJSON and its helpers)
  - src/index.mjs                (runBuildWithAutoFix, patch-path normalization)
  - src/commands/modify.mjs      (runModify control flow, modification history update)
  - src/projects/config.mjs      (updateConfigVbs)
-/

namespace BuildMyDotApi

/-- JSON whitespace characters (the four accepted by `JSON.parse`). -/
def isJsonWs (c : Char) : Bool :=
  c = ' ' || c = '\t' || c = '\n' || c = '\r'

/-- JS `\s` character class, restricted to the ASCII whitespace characters
that can occur in the embedded inputs (space, tab, newline, carriage return,
form feed, vertical tab). -/
def isJsWs (c : Char) : Bool :=
  c = ' ' || c = '\t' || c = '\n' || c = '\r' || c = '\x0c' || c = '\x0b'

/-- `pre` is a leading segment of `s` (JS `String.prototype.startsWith`). -/
def hasPre : List Char → List Char → Bool
  | [], _ => true
  | _ :: _, [] => false
  | p :: ps, s :: ss => p = s && hasPre ps ss

/-- Length of the maximal leading run of characters satisfying `p`. -/
def wsRun (p : Char → Bool) : List Char → Nat
  | [] => 0
  | c :: cs => if p c then wsRun p cs + 1 else 0

/-- Drop trailing characters satisfying `p` (JS `trimEnd` with `p = isJsWs`). -/
def dropTrailing (p : Char → Bool) (s : List Char) : List Char :=
  (((s.reverse).dropWhile p)).reverse

/-- JS `String.prototype.trim`: drop leading and trailing whitespace. -/
def jsTrim (s : List Char) : List Char :=
  dropTrailing isJsWs (s.dropWhile isJsWs)

/-- Split a character list on a separator character (used to model Node's
`path` segment handling: `p.split('/')`). -/
def splitOnChar (sep : Char) : List Char → List (List Char)
  | [] => [[]]
  | c :: cs =>
    let rest := splitOnChar sep cs
    if c = sep then [] :: rest
    else match rest with
      | [] => [[c]]
      | r :: rs => (c :: r) :: rs

/-- Interleave `sep` between the segments (inverse of `splitOnChar`). -/
def joinSegs (sep : Char) : List (List Char) → List Char
  | [] => []
  | [s] => s
  | s :: rest => s ++ sep :: joinSegs sep rest

/-! ### Node `path.join` (used by writer.mjs and index.mjs)

Node's `join(a, b)` concatenates the parts with `/` and normalizes the
result: empty and `.` segments are dropped, and a `..` segment removes the
preceding segment (for an absolute path, a `..` that would climb above the
root is dropped).  This is what lets a `..` in a generated file path escape
the project root. -/

/-- One step of segment resolution for an absolute path: `''` and `.` are
dropped, `..` pops the last segment (or is dropped at the root), anything
else is kept. -/
def resolveStep (stack : List (List Char)) (seg : List Char) : List (List Char) :=
  if seg = [] ∨ seg = ['.'] then stack
  else if seg = ['.', '.'] then stack.dropLast
  else stack ++ [seg]

/-- Normalize an absolute path the way Node's `path.normalize` does
(`projectDir` is always absolute in the source, so only the absolute case
is modelled). -/
def normalizeAbs (p : List Char) : List Char :=
  '/' :: joinSegs '/' ((splitOnChar '/' p).foldl resolveStep [])

/-- Node's `path.join(a, b)` for an absolute `a`: concatenate with `/` and
normalize.  A `..` segment in `b` climbs out of `a`. -/
def pathJoin (a b : List Char) : List Char :=
  normalizeAbs (a ++ '/' :: b)

/-- A resolved absolute path lies under the root directory `root`. -/
def underRoot (root p : List Char) : Bool :=
  p == root || hasPre (root ++ ['/']) p

/-! ### File writer (src/system/writer.mjs)

`writeProjectFiles(projectDir, files)` loops over the file records and, for
each one, computes `fullPath = join(projectDir, file.path)`, creates the
parent directory and writes `file.content` at `fullPath`.  There is no
check of any kind on `file.path`.  The model returns the list of
(absolute path, content) writes the loop performs. -/

/-- One generated file record: `{ path, content }`. -/
structure FileRec where
  path : List Char
  content : List Char

/-- The sequence of disk writes performed by `writeProjectFiles`. -/
def writeProjectFiles (projectDir : List Char) (files : List FileRec) :
    List (List Char × List Char) :=
  files.map (fun f => (pathJoin projectDir f.path, f.content))

/-! ### Project registry (src/projects/registry.mjs), entry-level core

`registerProject(entry)` loads the registry, removes every entry whose
`name` equals the new entry's name
(`reg.projects = reg.projects.filter(p => p.name !== entry.name)`),
puts the new entry at the front (`unshift`) and saves.  The list mutation
is modelled here over typed entries; the load/save halves are modelled
below on top of the JSON parser. -/

/-- A registry entry: `{ name, dir, type, stack, port, createdAt }`. -/
structure ProjectEntry where
  name : String
  dir : String
  type : String
  stack : List String
  port : Nat
  createdAt : String
deriving DecidableEq

/-- The in-memory list mutation performed by `registerProject`. -/
def registerEntry (projects : List ProjectEntry) (entry : ProjectEntry) :
    List ProjectEntry :=
  entry :: projects.filter (fun p => ¬ (p.name = entry.name))

/-! ### Endpoint tester (src/system/tester.mjs) -/

/-- The outcome of the `fetch` call inside `testEndpoint`: either an HTTP
response with a status code and a body, or a thrown transport error with
its `err.name` and `err.message`. -/
inductive FetchOutcome where
  | response (status : Nat) (body : List Char)
  | failure (errName : String) (errMsg : List Char)

/-- The record `testEndpoint` returns (elapsed wall-clock time omitted:
it is not modelled). -/
structure TestResult where
  method : String
  path : String
  status : Nat
  passed : Bool
  note : String
  body : List Char
deriving DecidableEq

/-- The declared endpoint under test (the fields `testEndpoint` reads). -/
structure Endpoint where
  method : String
  path : String

/-- `testEndpoint`, as a function of the endpoint and the fetch outcome:
`passed = status < 500`; the note chain is `401/403 → Auth Guard`,
`400 → Expected`, `404 → Not Found`, `422 → Validation`,
`≥500 → Server Error`, else the initial `OK`; a thrown error yields
status 0, `passed = false`, and note `Timeout` exactly for
`err.name === 'TimeoutError'`. -/
def testEndpoint (ep : Endpoint) (outcome : FetchOutcome) : TestResult :=
  match outcome with
  | .response status body =>
    let passed := decide (status < 500)
    let note :=
      if status = 401 ∨ status = 403 then "Auth Guard"
      else if status = 400 then "Expected"
      else if status = 404 then "Not Found"
      else if status = 422 then "Validation"
      else if 500 ≤ status then "Server Error"
      else "OK"
    { method := ep.method, path := ep.path, status := status,
      passed := passed, note := note, body := body.take 120 }
  | .failure errName errMsg =>
    let note := if errName = "TimeoutError" then "Timeout" else "Connection Error"
    { method := ep.method, path := ep.path, status := 0,
      passed := false, note := note, body := errMsg.take 60 }

/-! ### LLM gateway retry loop (src/ai/client.mjs, `sendMessage`)

`sendMessage` runs `for (attempt = 0; attempt < 3; attempt++)`: it calls
`callOnce` with the current token budget; a finish reason other than
`'length'` returns the text; otherwise the budget is doubled and capped at
`MAX_TOKENS_CAP` and the loop retries, except that the third attempt
returns its (partial) text unconditionally.  The network is modelled by a
function `call : attempt → tokens → (text, finishReason)`; the model also
returns the trace of budgets actually used.  `none` models the unreachable
`undefined` fall-through after the loop. -/

def MAX_TOKENS_CAP : Nat := 65536

/-- The loop body of `sendMessage`, recursing on the remaining attempts
(3 at the top call). -/
def sendMessageGo (call : Nat → Nat → String × String) :
    Nat → Nat → Nat → List Nat → Option String × List Nat
  | 0, _, _, trace => (none, trace)
  | remaining + 1, attempt, tokens, trace =>
    let r := call attempt tokens
    let trace := trace ++ [tokens]
    if r.2 ≠ "length" then (some r.1, trace)
    else
      let tokens' := min (tokens * 2) MAX_TOKENS_CAP
      if attempt < 2 then sendMessageGo call remaining (attempt + 1) tokens' trace
      else (some r.1, trace)

/-- `sendMessage(model, systemPrompt, userMessage, maxTokens)`: the model,
prompt and message only select the `call` function and are elided. -/
def sendMessage (call : Nat → Nat → String × String) (maxTokens : Nat) :
    Option String × List Nat :=
  sendMessageGo call 3 0 maxTokens []

/-! ### Build-with-auto-fix loop (src/index.mjs, `runBuildWithAutoFix`)

`runBuildWithAutoFix(buildDir, projectName, maxAttempts = 5)` runs
`for (attempt = 1; attempt <= maxAttempts; attempt++)`: run the build; on
success return `true`; on failure, if `attempt >= maxAttempts` warn and
return `false`; otherwise invoke the fixer (a thrown error or an empty
patch list returns `false`), apply every patch — normalizing a leading
`frontend/` or `backend/` prefix — and retry.  The external build and
fixer are modelled as functions of the attempt number; the disk is an
association list from absolute path to content.  The model also returns
how many build attempts ran. -/

def frontendPre : List Char := ['f', 'r', 'o', 'n', 't', 'e', 'n', 'd', '/']

def backendPre : List Char := ['b', 'a', 'c', 'k', 'e', 'n', 'd', '/']

/-- JS `s.replace(/^pre/, '')`: strip one leading occurrence of `pre`. -/
def stripPre (pre s : List Char) : List Char :=
  if hasPre pre s then s.drop pre.length else s

/-- `patch.path.replace(/^frontend\//, '').replace(/^backend\//, '')`. -/
def normalizePatchPath (p : List Char) : List Char :=
  stripPre backendPre (stripPre frontendPre p)

/-- Where a fixer patch with path `p` is written, relative to `buildDir`. -/
def fixerWriteTarget (buildDir p : List Char) : List Char :=
  pathJoin buildDir (normalizePatchPath p)

/-- A fixer patch: full replacement content for one file. -/
structure Patch where
  path : List Char
  content : List Char

/-- Overwrite (or create) one file in the on-disk state. -/
def setFile (disk : List (List Char × List Char)) (p c : List Char) :
    List (List Char × List Char) :=
  match disk with
  | [] => [(p, c)]
  | (q, d) :: rest => if q = p then (q, c) :: rest else (q, d) :: setFile rest p c

/-- Apply one fixer patch: write its content at the normalized path. -/
def applyPatch (buildDir : List Char) (disk : List (List Char × List Char))
    (patch : Patch) : List (List Char × List Char) :=
  setFile disk (fixerWriteTarget buildDir patch.path) patch.content

/-- Apply a whole round of fixer patches in order. -/
def applyPatches (buildDir : List Char) (disk : List (List Char × List Char))
    (ps : List Patch) : List (List Char × List Char) :=
  ps.foldl (applyPatch buildDir) disk

/-- The loop of `runBuildWithAutoFix`, recursing on the remaining
attempts; `build n` is attempt `n`'s success flag, `fixer n` is the
fixer's result after attempt `n` (`none` models a thrown error).  Returns
(overall success, number of build attempts run, final disk state). -/
def autoFixGo (build : Nat → Bool) (fixer : Nat → Option (List Patch))
    (buildDir : List Char) (maxAttempts : Nat) :
    Nat → List (List Char × List Char) → Nat →
    Bool × Nat × List (List Char × List Char)
  | 0, disk, builds => (false, builds, disk)
  | remaining + 1, disk, builds =>
    let attempt := maxAttempts - remaining
    let ok := build attempt
    let builds := builds + 1
    if ok then (true, builds, disk)
    else if remaining = 0 then (false, builds, disk)
    else match fixer attempt with
      | none => (false, builds, disk)
      | some [] => (false, builds, disk)
      | some ps => autoFixGo build fixer buildDir maxAttempts remaining
          (applyPatches buildDir disk ps) builds

/-- `runBuildWithAutoFix` with its default ceiling of 5 attempts. -/
def runBuildWithAutoFix (build : Nat → Bool) (fixer : Nat → Option (List Patch))
    (buildDir : List Char) (disk : List (List Char × List Char))
    (maxAttempts : Nat := 5) : Bool × Nat × List (List Char × List Char) :=
  autoFixGo build fixer buildDir maxAttempts maxAttempts disk 0

/-! ### JSON values and `JSON.parse`

A JSON value as produced by `JSON.parse`.  Number tokens are kept as their
lexeme (the claims never compare numerically), and an object is the list
of its members in source order (the inputs in the theorems below have no
duplicate keys, so JS's last-write-wins duplicate handling never
matters). -/

inductive Json where
  | null
  | bool (b : Bool)
  | num (lexeme : String)
  | str (s : String)
  | arr (elems : List Json)
  | obj (fields : List (String × Json))

/-- Hexadecimal digit value, for `\uXXXX` escapes. -/
def hexVal (c : Char) : Option Nat :=
  if '0' ≤ c ∧ c ≤ '9' then some (c.toNat - '0'.toNat)
  else if 'a' ≤ c ∧ c ≤ 'f' then some (c.toNat - 'a'.toNat + 10)
  else if 'A' ≤ c ∧ c ≤ 'F' then some (c.toNat - 'A'.toNat + 10)
  else none

/-- Decimal digit test for the JSON number grammar. -/
def isDigitCh (c : Char) : Bool := '0' ≤ c && c ≤ '9'

/-- Body of a JSON string literal (after the opening quote): handles the
standard escapes, rejects raw control characters, stops at the closing
quote.  Fuel-driven; the top-level call supplies enough fuel. -/
def parseStrAux : Nat → List Char → List Char → Except String (String × List Char)
  | 0, _, _ => .error "out of fuel"
  | _, [], _ => .error "Unterminated string in JSON"
  | fuel + 1, c :: rest, acc =>
    if c = '"' then .ok (String.mk acc.reverse, rest)
    else if c = '\\' then
      match rest with
      | [] => .error "Unterminated string in JSON"
      | e :: rest' =>
        if e = '"' then parseStrAux fuel rest' ('"' :: acc)
        else if e = '\\' then parseStrAux fuel rest' ('\\' :: acc)
        else if e = '/' then parseStrAux fuel rest' ('/' :: acc)
        else if e = 'b' then parseStrAux fuel rest' ('\x08' :: acc)
        else if e = 'f' then parseStrAux fuel rest' ('\x0c' :: acc)
        else if e = 'n' then parseStrAux fuel rest' ('\n' :: acc)
        else if e = 'r' then parseStrAux fuel rest' ('\r' :: acc)
        else if e = 't' then parseStrAux fuel rest' ('\t' :: acc)
        else if e = 'u' then
          match rest' with
          | h1 :: h2 :: h3 :: h4 :: rest'' =>
            match hexVal h1, hexVal h2, hexVal h3, hexVal h4 with
            | some a, some b, some c3, some d =>
              parseStrAux fuel rest''
                (Char.ofNat (((a * 16 + b) * 16 + c3) * 16 + d) :: acc)
            | _, _, _, _ => .error "Bad Unicode escape in JSON"
          | _ => .error "Bad Unicode escape in JSON"
        else .error "Bad escaped character in JSON"
    else if c.toNat < 0x20 then .error "Bad control character in string literal in JSON"
    else parseStrAux fuel rest (c :: acc)

/-- The JSON number grammar (`-? int frac? exp?`), strict as in
`JSON.parse` (no leading zeros, no bare `-`, no trailing `.`).  Returns
the lexeme and the rest of the input. -/
def parseNum (cs : List Char) : Except String (String × List Char) :=
  let (sign, cs1) :=
    match cs with
    | '-' :: r => (['-'], r)
    | _ => (([] : List Char), cs)
  match cs1 with
  | [] => .error "Unexpected end of JSON input"
  | d :: _ =>
    if ¬ isDigitCh d then .error "Unexpected token in JSON"
    else
      let intPart := if d = '0' then ['0'] else cs1.takeWhile isDigitCh
      let cs2 := cs1.drop intPart.length
      let (fracPart, cs3) :=
        match cs2 with
        | '.' :: r =>
          let ds := r.takeWhile isDigitCh
          if ds = [] then (([] : List Char), ('.' :: r))
          else ('.' :: ds, r.drop ds.length)
        | _ => (([] : List Char), cs2)
      if fracPart = [] ∧ cs3.head? = some '.' then .error "Unexpected token in JSON"
      else
        let expRes : List Char × List Char × Bool :=
          match cs3 with
          | e :: r =>
            if e = 'e' ∨ e = 'E' then
              let signedTail : List Char × List Char :=
                match r with
                | '+' :: r' => ([e, '+'], r')
                | '-' :: r' => ([e, '-'], r')
                | _ => ([e], r)
              let ds := signedTail.2.takeWhile isDigitCh
              if ds = [] then ([], cs3, true)
              else (signedTail.1 ++ ds, signedTail.2.drop ds.length, false)
            else ([], cs3, false)
          | [] => ([], cs3, false)
        if expRes.2.2 then .error "Unexpected token in JSON"
        else .ok (String.mk (sign ++ intPart ++ fracPart ++ expRes.1), expRes.2.1)

mutual

/-- Parse one JSON value (leading whitespace allowed), returning the value
and the unconsumed input.  Fuel decreases on every nested value and every
collection item; `parseJSONList` supplies enough for any input. -/
def parseValue : Nat → List Char → Except String (Json × List Char)
  | 0, _ => .error "out of fuel"
  | fuel + 1, cs0 =>
    let cs := cs0.dropWhile isJsonWs
    match cs with
    | [] => .error "Unexpected end of JSON input"
    | c :: rest =>
      if c = '{' then
        let cs' := rest.dropWhile isJsonWs
        match cs' with
        | '}' :: r => .ok (.obj [], r)
        | _ => parseObjItems fuel cs' []
      else if c = '[' then
        let cs' := rest.dropWhile isJsonWs
        match cs' with
        | ']' :: r => .ok (.arr [], r)
        | _ => parseArrItems fuel cs' []
      else if c = '"' then
        match parseStrAux (rest.length + 1) rest [] with
        | .ok (s, r) => .ok (.str s, r)
        | .error e => .error e
      else if hasPre ['t', 'r', 'u', 'e'] cs then .ok (.bool true, cs.drop 4)
      else if hasPre ['f', 'a', 'l', 's', 'e'] cs then .ok (.bool false, cs.drop 5)
      else if hasPre ['n', 'u', 'l', 'l'] cs then .ok (.null, cs.drop 4)
      else if c = '-' ∨ isDigitCh c then
        match parseNum cs with
        | .ok (lex, r) => .ok (.num lex, r)
        | .error e => .error e
      else .error "Unexpected token in JSON"

/-- Parse the items of a non-empty array, positioned at the first item. -/
def parseArrItems : Nat → List Char → List Json → Except String (Json × List Char)
  | 0, _, _ => .error "out of fuel"
  | fuel + 1, cs, acc =>
    match parseValue fuel cs with
    | .error e => .error e
    | .ok (v, rest) =>
      let rest' := rest.dropWhile isJsonWs
      match rest' with
      | ',' :: r => parseArrItems fuel r (v :: acc)
      | ']' :: r => .ok (.arr (v :: acc).reverse, r)
      | _ => .error "Expected comma or closing bracket in JSON array"

/-- Parse the members of a non-empty object, positioned at the first key. -/
def parseObjItems : Nat → List Char → List (String × Json) →
    Except String (Json × List Char)
  | 0, _, _ => .error "out of fuel"
  | fuel + 1, cs, acc =>
    match cs with
    | '"' :: r0 =>
      match parseStrAux (r0.length + 1) r0 [] with
      | .error e => .error e
      | .ok (key, r1) =>
        match r1.dropWhile isJsonWs with
        | ':' :: r2 =>
          match parseValue fuel r2 with
          | .error e => .error e
          | .ok (v, rest) =>
            let rest' := rest.dropWhile isJsonWs
            match rest' with
            | ',' :: r => parseObjItems fuel (r.dropWhile isJsonWs) ((key, v) :: acc)
            | '}' :: r => .ok (.obj ((key, v) :: acc).reverse, r)
            | _ => .error "Expected comma or closing brace in JSON object"
        | _ => .error "Expected colon in JSON object"
    | _ => .error "Expected property name in JSON object"

end

/-- `JSON.parse` on a character list: one value, then only trailing
whitespace. -/
def parseJSONList (cs : List Char) : Except String Json :=
  match parseValue (2 * cs.length + 4) cs with
  | .error e => .error e
  | .ok (v, rest) =>
    if rest.dropWhile isJsonWs = [] then .ok v
    else .error "Unexpected non-whitespace character after JSON"

/-- `JSON.parse` on a Lean string. -/
def parseJSON (s : String) : Except String Json :=
  parseJSONList s.data

/-! ### `extractJSON` and its helpers (src/ai/client.mjs)

The pipeline is: strip a leading BOM; remove the first markdown fence
opener (`/^((three backticks))(?:json)?\s*/m`) and the first fence closer
(`/\s*(three backticks)\s*$/m`); `trim()`; drop any prose before the first
`{` or `[`; escape raw control characters inside string literals; remove
commas that immediately precede a `}` or `]` (a global regex with no
string-literal awareness); `JSON.parse`; and on failure attempt
`repairTruncatedJSON` and re-parse. -/

/-- The backtick character. -/
def backtick : Char := Char.ofNat 96

/-- Lowercase hexadecimal digit. -/
def hexDigitCh (n : Nat) : Char :=
  if n < 10 then Char.ofNat ('0'.toNat + n) else Char.ofNat ('a'.toNat + n - 10)

/-- Four lowercase hex digits (JS `toString(16).padStart(4, '0')`). -/
def hex4 (n : Nat) : List Char :=
  [hexDigitCh (n / 4096 % 16), hexDigitCh (n / 256 % 16),
   hexDigitCh (n / 16 % 16), hexDigitCh (n % 16)]

/-- The replacement the `ESC` table (then the `\uXXXX` fallback) produces
for a raw control character found inside a string literal. -/
def escSeq (c : Char) : List Char :=
  if c = '\n' then ['\\', 'n']
  else if c = '\r' then ['\\', 'r']
  else if c = '\t' then ['\\', 't']
  else if c = '\x08' then ['\\', 'b']
  else if c = '\x0c' then ['\\', 'f']
  else '\\' :: 'u' :: hex4 c.toNat

/-- The character walk of `sanitizeControlChars`, carrying the
`inString` / `escape` state. -/
def sanitizeGo : List Char → Bool → Bool → List Char
  | [], _, _ => []
  | c :: rest, inString, escape =>
    if escape then c :: sanitizeGo rest inString false
    else if c = '\\' ∧ inString then c :: sanitizeGo rest inString true
    else if c = '"' then c :: sanitizeGo rest (!inString) false
    else if inString ∧ c.toNat < 0x20 then escSeq c ++ sanitizeGo rest inString false
    else c :: sanitizeGo rest inString false

/-- `sanitizeControlChars`: escape raw control characters inside JSON
string literals. -/
def sanitizeControlChars (s : List Char) : List Char :=
  sanitizeGo s false false

/-- `str.replace(/,(\s*[}\]])/g, '$1')`: a comma followed by optional
whitespace and a closing brace/bracket loses the comma; the scan resumes
after the bracket.  The regex has no notion of string literals, so it also
fires inside them.  Fuel-driven (`removeTrailingCommas` supplies enough). -/
def rtcGo : Nat → List Char → List Char
  | 0, cs => cs
  | _ + 1, [] => []
  | fuel + 1, c :: rest =>
    if c = ',' then
      let ws := rest.takeWhile isJsWs
      match rest.drop ws.length with
      | b :: rest' =>
        if b = '\x7d' ∨ b = ']' then ws ++ b :: rtcGo fuel rest'
        else c :: rtcGo fuel rest
      | [] => c :: rtcGo fuel rest
    else c :: rtcGo fuel rest

/-- `removeTrailingCommas`. -/
def removeTrailingCommas (s : List Char) : List Char :=
  rtcGo (s.length + 1) s

/-- Scanner state of `repairTruncatedJSON`: the stack of pending closers
(most recent first), string-literal and escape state, and the last
position outside a string literal. -/
structure RepairSt where
  stack : List Char
  inString : Bool
  escape : Bool
  lastSafePos : Nat

/-- The character walk of `repairTruncatedJSON` (`i` is the current
index). -/
def repairScan : List Char → Nat → RepairSt → RepairSt
  | [], _, st => st
  | ch :: rest, i, st =>
    let st' :=
      if st.escape then { st with escape := false }
      else if ch = '\\' ∧ st.inString then { st with escape := true }
      else if ch = '"' then
        let ns := !st.inString
        { st with
          inString := ns,
          lastSafePos := if ns then st.lastSafePos else i + 1 }
      else if st.inString then st
      else
        let stack' :=
          if ch = '\x7b' then '\x7d' :: st.stack
          else if ch = '[' then ']' :: st.stack
          else if ch = '\x7d' ∨ ch = ']' then st.stack.tail
          else st.stack
        { st with stack := stack', lastSafePos := i + 1 }
    repairScan rest (i + 1) st'

/-- `repairTruncatedJSON`: `null` (here `none`) when the input needs no
repair (balanced and not inside a string); otherwise truncate to the last
safe position, `trimEnd()`, drop a dangling comma, and append the pending
closers most-recently-opened first. -/
def repairTruncatedJSON (s : List Char) : Option (List Char) :=
  let st := repairScan s 0 ⟨[], false, false, 0⟩
  if st.stack = [] ∧ st.inString = false then none
  else
    let r := dropTrailing isJsWs (s.take st.lastSafePos)
    let r := match r.getLast? with
      | some ',' => r.dropLast
      | _ => r
    some (r ++ st.stack)

/-- Search for the first fence opener: a position at a line start where
three backticks begin; remove the backticks, an optional `json` tag and
the following whitespace.  Returns `none` when the regex does not match
(the JS `replace` then leaves the string unchanged). -/
def stripFenceOpenAux : List Char → Bool → Option (List Char)
  | [], _ => none
  | c :: rest, atLS =>
    if atLS ∧ hasPre [backtick, backtick, backtick] (c :: rest) then
      let afterTicks := rest.drop 2
      let afterTag :=
        if hasPre ['j', 's', 'o', 'n'] afterTicks then afterTicks.drop 4
        else afterTicks
      some (afterTag.dropWhile isJsWs)
    else
      match stripFenceOpenAux rest (c = '\n' ∨ c = '\r') with
      | none => none
      | some tail => some (c :: tail)

/-- `cleaned.replace(/^(three backticks)(?:json)?\s*(slash)m, '')`. -/
def stripFenceOpen (s : List Char) : List Char :=
  match stripFenceOpenAux s true with
  | some r => r
  | none => s

/-- Largest index whose character satisfies `p`. -/
def lastIdxWhere (p : Char → Bool) (l : List Char) : Option Nat :=
  match List.findIdx? p l.reverse with
  | some j => some (l.length - 1 - j)
  | none => none

/-- Try the fence-closer regex at the start of `cs`: optional whitespace,
three backticks, then whitespace up to a line end (`$` with the `m` flag
matches before a line terminator or at the end of input; the greedy
`\s*` backtracks to the last such position).  Returns the remainder after
the match. -/
def fenceCloseMatch (cs : List Char) : Option (List Char) :=
  let w := cs.takeWhile isJsWs
  let afterW := cs.drop w.length
  if hasPre [backtick, backtick, backtick] afterW then
    let tail := afterW.drop 3
    let run := tail.takeWhile isJsWs
    if tail.drop run.length = [] then some []
    else
      match lastIdxWhere (fun c => c == '\n' || c == '\r') run with
      | some o => some (tail.drop o)
      | none => none
  else none

/-- Leftmost match of the fence-closer regex, with the match removed. -/
def stripFenceCloseAux : List Char → Option (List Char)
  | [] => none
  | c :: rest =>
    match fenceCloseMatch (c :: rest) with
    | some rem => some rem
    | none =>
      match stripFenceCloseAux rest with
      | some tailRes => some (c :: tailRes)
      | none => none

/-- `cleaned.replace(/\s*(three backticks)\s*$(slash)m, '')`. -/
def stripFenceClose (s : List Char) : List Char :=
  match stripFenceCloseAux s with
  | some r => r
  | none => s

/-- `extractJSON` over a character list. -/
def extractJSONList (text : List Char) : Except String Json :=
  let cleaned :=
    if text.head? = some (Char.ofNat 0xFEFF) then text.tail else text
  let cleaned := jsTrim (stripFenceClose (stripFenceOpen cleaned))
  let cleaned :=
    match List.findIdx? (fun c => c == '\x7b' || c == '[') cleaned with
    | some i => if 0 < i then cleaned.drop i else cleaned
    | none => cleaned
  let cleaned := removeTrailingCommas (sanitizeControlChars cleaned)
  match parseJSONList cleaned with
  | .ok v => .ok v
  | .error e1 =>
    match repairTruncatedJSON cleaned with
    | some repaired =>
      match parseJSONList repaired with
      | .ok v => .ok v
      | .error _ => .error "AI response JSON is invalid and could not be repaired"
    | none => .error ("AI response is not valid JSON: " ++ e1)

/-- `extractJSON` on a Lean string. -/
def extractJSON (s : String) : Except String Json :=
  extractJSONList s.data

/-! ### Registry on top of `JSON.parse` (src/projects/registry.mjs)

`load()` reads and parses the registry file, and any failure (missing
file, unreadable file, invalid JSON) yields the fresh value
`{ projects: [] }`.  The file content is modelled as `Option String`
(`none` = the read throws).  Entries inside the parsed document are raw
JSON values, exactly as in the source. -/

/-- Property lookup `j[key]` (`none` = `undefined`; duplicate keys in a
parsed object: last one wins, as in JS). -/
def jsField (j : Json) (key : String) : Option Json :=
  match j with
  | .obj fs => ((fs.filter (fun kv => kv.1 == key)).getLast?).map (fun kv => kv.2)
  | _ => none

/-- Property write `j[key] = v` (on a non-object the write is dropped;
the registry code never reaches that case: it fails on `.filter`
first). -/
def jsSetField (j : Json) (key : String) (v : Json) : Json :=
  match j with
  | .obj fs =>
    if fs.any (fun kv => kv.1 == key) then
      .obj (fs.map (fun kv => if kv.1 == key then (kv.1, v) else kv))
    else .obj (fs ++ [(key, v)])
  | other => other

/-- `load()`: parse the registry file, defaulting to `{ projects: [] }`
on any read or parse failure. -/
def loadRegistry (content : Option String) : Json :=
  match content with
  | none => .obj [("projects", .arr [])]
  | some s =>
    match parseJSON s with
    | .ok v => v
    | .error _ => .obj [("projects", .arr [])]

/-- `reg.projects`, when it is an array (otherwise the methods called on
it throw a `TypeError`, modelled as `none` here and as an `error` in the
operations below). -/
def registryProjects (j : Json) : Option (List Json) :=
  match jsField j "projects" with
  | some (.arr l) => some l
  | _ => none

/-- `p.name === name` for a string `name` (a missing or non-string
`name` property is never strictly equal to a string). -/
def jsNameIs (p : Json) (name : String) : Bool :=
  match jsField p "name" with
  | some (.str s) => s == name
  | _ => false

/-- `p.name === entry.name` between two entries.  String names compare by
value and two absent names are both `undefined`, hence strictly equal;
entries produced by the tool always carry string names, so the remaining
(non-string) cases are conservatively unequal. -/
def jsSameName (p entry : Json) : Bool :=
  match jsField p "name", jsField entry "name" with
  | some (.str a), some (.str b) => a == b
  | none, none => true
  | _, _ => false

/-- `listProjects()`: `(await load()).projects`. -/
def listProjects (content : Option String) : Except String (List Json) :=
  match registryProjects (loadRegistry content) with
  | some l => .ok l
  | none => .error "TypeError: reg.projects is not an array"

/-- `findProject(name)`: `reg.projects.find(p => p.name === name) || null`. -/
def findProject (content : Option String) (name : String) :
    Except String (Option Json) :=
  match listProjects content with
  | .ok l => .ok (l.find? (fun p => jsNameIs p name))
  | .error e => .error e

/-- `registerProject(entry)`: drop entries with the same name, `unshift`
the new entry, and save; the result is the JSON document written back to
the registry file. -/
def registerProject (content : Option String) (entry : Json) :
    Except String Json :=
  let reg := loadRegistry content
  match registryProjects reg with
  | none => .error "TypeError: reg.projects is not an array"
  | some ps =>
    .ok (jsSetField reg "projects" (.arr (entry :: ps.filter (fun p => ! jsSameName p entry))))

/-! ### `modify` command (src/commands/modify.mjs) and config store
(src/projects/config.mjs)

`runModify(name, modPrompt)` resolves the project (registry first, then
the directory-as-identity fallback), exits with code 1 on an unknown
name, generates a modification, asks for confirmation, writes the changed
files with `join(entry.dir, file.path)`, optionally reinstalls/rebuilds/
restarts (none of which writes project files), and finally prepends a
history entry and stores the config with the history capped by
`history.slice(0, 10)`.  External effects are inputs in `ModifyEnv`; the
outcome records the exit, the file writes performed, and the stored
config. -/

/-- One modification-history entry (`date`, `request`, `files`,
`summary`). -/
structure HistEntry where
  date : String
  request : String
  files : List (List Char)
  summary : String
deriving DecidableEq

/-- The per-project `config.vbs` fields the modify flow reads or writes
(the full file carries more fields — prompt, backend/frontend subconfigs,
endpoints, ... — which this flow passes through unchanged). -/
structure ConfigVbs where
  name : String
  type : String
  stack : List String
  modificationHistory : List HistEntry
  updatedAt : String
deriving DecidableEq

/-- `updateConfigVbs(projectDir, patch)` for the patch the modify flow
sends: spread the existing config, overwrite `modificationHistory`, and
stamp `updatedAt` with the current time. -/
def updateConfigVbs (existing : ConfigVbs) (patchHistory : List HistEntry)
    (now : String) : ConfigVbs :=
  { existing with modificationHistory := patchHistory, updatedAt := now }

/-- The history value the modify flow stores:
`history.unshift(newEntry); history.slice(0, 10)`. -/
def modifyHistoryUpdate (prior : List HistEntry) (e : HistEntry) :
    List HistEntry :=
  (e :: prior).take 10

/-- The Modifier's result: changed files, a summary, restart/rebuild
flags and free-text notes. -/
structure ModResult where
  files : List FileRec
  summary : String
  restartRequired : Bool
  rebuildRequired : Bool
  notes : String

/-- The external world as seen by one `runModify` run. -/
structure ModifyEnv where
  findResult : Option ProjectEntry
  dirAtNameExists : Bool
  hasCfgAtName : Bool
  cfgAtName : Option ConfigVbs
  entryDirExists : Bool
  cfgAtEntryDir : Option ConfigVbs
  modResult : Option ModResult
  proceed : Bool

/-- The entry record `runModify` works with (`{ name, dir, type }`). -/
structure ModEntry where
  name : String
  dir : String
  type : String

/-- How one `runModify` run ends.  `exited n` models `process.exit(n)`,
`threw` an uncaught exception, `cancelled` the declined confirmation;
`finished` carries the project-file writes performed and the config
stored at the end. -/
inductive ModifyOutcome where
  | exited (code : Nat) (message : String) (writes : List (List Char))
  | threw (message : String) (writes : List (List Char))
  | cancelled (writes : List (List Char))
  | finished (writes : List (List Char)) (storedConfig : ConfigVbs)

/-- The history entry `runModify` builds after applying a modification. -/
def mkHistEntry (now request : String) (result : ModResult) : HistEntry :=
  { date := now, request := request,
    files := result.files.map (fun f => f.path), summary := result.summary }

/-- `runModify` after the project entry has been resolved. -/
def runModifyWithEntry (modificationRequest now : String) (entry : ModEntry)
    (env : ModifyEnv) : ModifyOutcome :=
  if ¬ env.entryDirExists then
    .exited 1 ("Project directory missing: " ++ entry.dir) []
  else
    match env.cfgAtEntryDir with
    | none => .exited 1 "config.vbs not found or invalid" []
    | some cfg =>
      match env.modResult with
      | none => .threw "AI generation failed" []
      | some result =>
        if ¬ env.proceed then .cancelled []
        else
          let writes := result.files.map (fun f => pathJoin entry.dir.data f.path)
          let newEntry := mkHistEntry now modificationRequest result
          .finished writes
            (updateConfigVbs cfg
              (modifyHistoryUpdate cfg.modificationHistory newEntry) now)

/-- `runModify(name, modPrompt)`: registry lookup, then the
directory-as-identity fallback, then the "not found" exit; no file write
happens before the entry is resolved. -/
def runModify (name modificationRequest now : String) (env : ModifyEnv) :
    ModifyOutcome :=
  match env.findResult with
  | some e =>
    runModifyWithEntry modificationRequest now
      { name := e.name, dir := e.dir, type := e.type } env
  | none =>
    if env.dirAtNameExists ∧ env.hasCfgAtName then
      match env.cfgAtName with
      | some c =>
        runModifyWithEntry modificationRequest now
          { name := c.name, dir := name, type := c.type } env
      | none => .threw "readConfigVbs failed" []
    else .exited 1 ("Project \x22" ++ name ++ "\x22 not found.") []

/-! ## Theorems -/

/-- C1: `writeProjectFiles` does not confine writes to the project root:
with project root `/srv/proj`, the file record whose relative path is
`../pwned.txt` is written (not rejected, not neutralized) at
`/srv/pwned.txt`, which lies outside the root. -/
theorem writeProjectFiles_escapes_root :
    writeProjectFiles ['/', 's', 'r', 'v', '/', 'p', 'r', 'o', 'j']
        [⟨['.', '.', '/', 'p', 'w', 'n', 'e', 'd', '.', 't', 'x', 't'], ['x']⟩] =
      [(['/', 's', 'r', 'v', '/', 'p', 'w', 'n', 'e', 'd', '.', 't', 'x', 't'], ['x'])] ∧
    underRoot ['/', 's', 'r', 'v', '/', 'p', 'r', 'o', 'j']
      ['/', 's', 'r', 'v', '/', 'p', 'w', 'n', 'e', 'd', '.', 't', 'x', 't'] = false := by
  exact ⟨rfl, rfl⟩

/-- C2: on the valid, untruncated document `\x7b"a": ",\x7d"\x7d`,
`extractJSON` does not return the value of a standard JSON parse: the
trailing-comma regex fires inside the string literal and turns the value
`",\x7d"` into `"\x7d"`. -/
theorem extractJSON_corrupts_string_literal :
    parseJSONList ['\x7b', '"', 'a', '"', ':', ' ', '"', ',', '\x7d', '"', '\x7d'] =
      .ok (.obj [("a", .str ",\x7d")]) ∧
    extractJSONList ['\x7b', '"', 'a', '"', ':', ' ', '"', ',', '\x7d', '"', '\x7d'] =
      .ok (.obj [("a", .str "\x7d")]) ∧
    (",\x7d" : String) ≠ "\x7d" := by
  refine ⟨rfl, rfl, ?_⟩
  decide

/-- C8: `testEndpoint` passes exactly the statuses below 500, records
status 0 and fails on transport errors, and attaches the notes
`200 → OK`, `401 → Auth Guard`, `404 → Not Found`, `503 → Server Error`,
timeout → `Timeout`. -/
theorem testEndpoint_classification (ep : Endpoint) :
    (∀ s b, (testEndpoint ep (.response s b)).passed = decide (s < 500) ∧
            (testEndpoint ep (.response s b)).status = s) ∧
    (∀ n m, (testEndpoint ep (.failure n m)).passed = false ∧
            (testEndpoint ep (.failure n m)).status = 0) ∧
    (testEndpoint ep (.response 200 [])).passed = true ∧
    (testEndpoint ep (.response 200 [])).note = "OK" ∧
    (testEndpoint ep (.response 401 [])).passed = true ∧
    (testEndpoint ep (.response 401 [])).note = "Auth Guard" ∧
    (testEndpoint ep (.response 404 [])).passed = true ∧
    (testEndpoint ep (.response 404 [])).note = "Not Found" ∧
    (testEndpoint ep (.response 503 [])).passed = false ∧
    (testEndpoint ep (.response 503 [])).note = "Server Error" ∧
    (testEndpoint ep (.failure "TimeoutError" [])).passed = false ∧
    (testEndpoint ep (.failure "TimeoutError" [])).note = "Timeout" := by
  refine ⟨fun s b => ⟨rfl, rfl⟩, fun n m => ⟨rfl, rfl⟩, ?_⟩
  repeat constructor

/-- C3: when the first two attempts finish with reason `length`,
`sendMessage` makes exactly three underlying calls whose budgets are the
initial budget, then doubled-and-capped budgets, monotonically
non-decreasing (for an initial budget within the cap, as every caller
passes), and returns the third call's text — both when the third attempt
stops normally and when it is still truncated (the partial text is
returned, no error raised). -/
theorem sendMessage_truncation_retry (call : Nat → Nat → String × String)
    (maxTokens : Nat) (hcap : maxTokens ≤ MAX_TOKENS_CAP)
    (h0 : ∀ t, (call 0 t).2 = "length") (h1 : ∀ t, (call 1 t).2 = "length") :
    sendMessage call maxTokens =
      (some (call 2 (min (min (maxTokens * 2) MAX_TOKENS_CAP * 2) MAX_TOKENS_CAP)).1,
       [maxTokens, min (maxTokens * 2) MAX_TOKENS_CAP,
        min (min (maxTokens * 2) MAX_TOKENS_CAP * 2) MAX_TOKENS_CAP]) ∧
    maxTokens ≤ min (maxTokens * 2) MAX_TOKENS_CAP ∧
    min (maxTokens * 2) MAX_TOKENS_CAP ≤
      min (min (maxTokens * 2) MAX_TOKENS_CAP * 2) MAX_TOKENS_CAP := by
  refine ⟨?_, ?_, ?_⟩
  · simp only [sendMessage, sendMessageGo, h0, h1]
    norm_num
  · have h2 : maxTokens ≤ maxTokens * 2 := by omega
    exact le_min h2 hcap
  · have hle : min (maxTokens * 2) MAX_TOKENS_CAP ≤ MAX_TOKENS_CAP := min_le_right _ _
    have h2 : min (maxTokens * 2) MAX_TOKENS_CAP ≤ min (maxTokens * 2) MAX_TOKENS_CAP * 2 := by omega
    exact le_min h2 hle

/-- C3 witness: a concrete outcome sequence `length, length, stop` with
the default initial budget 8192: three calls at 8192, 16384, 32768, and
the third call's text is returned. -/
theorem sendMessage_truncation_retry_witness :
    8192 ≤ MAX_TOKENS_CAP ∧
    sendMessage (fun a _ => if a = 2 then ("final", "stop") else ("partial", "length"))
        8192 =
      (some "final", [8192, 16384, 32768]) := by
  constructor
  · decide
  · have h := (sendMessage_truncation_retry
      (fun a _ => if a = 2 then ("final", "stop") else ("partial", "length"))
      8192 (by decide) (fun t => rfl) (fun t => rfl)).1
    simpa [MAX_TOKENS_CAP] using h

/-- C4: with a build that always fails and a fixer that always returns
at least one patch without raising, `runBuildWithAutoFix` runs exactly 5
build attempts, returns failure, and leaves the disk in the state
produced by the four applied patch rounds (the rounds after attempts 1-4;
no patches follow the fifth failure). -/
theorem runBuildWithAutoFix_always_failing (fixer : Nat → Option (List Patch))
    (ps : Nat → List Patch) (hfix : ∀ n, fixer n = some (ps n))
    (hne : ∀ n, ps n ≠ []) (buildDir : List Char)
    (disk : List (List Char × List Char)) :
    runBuildWithAutoFix (fun _ => false) fixer buildDir disk 5 =
      (false, 5,
        applyPatches buildDir (applyPatches buildDir (applyPatches buildDir
          (applyPatches buildDir disk (ps 1)) (ps 2)) (ps 3)) (ps 4)) := by
  obtain ⟨a1, b1, e1⟩ := List.exists_cons_of_ne_nil (hne 1)
  obtain ⟨a2, b2, e2⟩ := List.exists_cons_of_ne_nil (hne 2)
  obtain ⟨a3, b3, e3⟩ := List.exists_cons_of_ne_nil (hne 3)
  obtain ⟨a4, b4, e4⟩ := List.exists_cons_of_ne_nil (hne 4)
  simp only [runBuildWithAutoFix, autoFixGo, hfix, e1, e2, e3, e4]
  norm_num

/-- C4 witness: a concrete always-failing build with a one-patch fixer:
5 attempts, failure returned, the patched file on disk. -/
theorem runBuildWithAutoFix_always_failing_witness :
    runBuildWithAutoFix (fun _ => false) (fun _ => some [⟨['a'], ['b']⟩])
        ['/', 'd'] [] 5 =
      (false, 5, [(['/', 'd', '/', 'a'], ['b'])]) := by
  have h := runBuildWithAutoFix_always_failing (fun _ => some [⟨['a'], ['b']⟩])
    (fun _ => [⟨['a'], ['b']⟩]) (fun n => rfl) (fun n => List.cons_ne_nil _ _)
    ['/', 'd'] []
  rw [h]
  rfl

/-- C5: registering an entry whose name collides with an earlier one is
last-write-wins: for every prior registry list, after registering `e1`
and then `e2` with the same name, the second entry is first, it is the
only entry with that name, and the entries with other names are exactly
those of the prior list, in order. -/
theorem registerEntry_last_write_wins (reg : List ProjectEntry)
    (e1 e2 : ProjectEntry) (h : e1.name = e2.name) :
    (registerEntry (registerEntry reg e1) e2).head? = some e2 ∧
    (registerEntry (registerEntry reg e1) e2).countP
      (fun p => p.name == e2.name) = 1 ∧
    (registerEntry (registerEntry reg e1) e2).filter
        (fun p => ¬ (p.name = e2.name)) =
      reg.filter (fun p => ¬ (p.name = e2.name)) := by
  have key : registerEntry (registerEntry reg e1) e2 =
      e2 :: reg.filter (fun p => ¬ (p.name = e2.name)) := by
    simp only [registerEntry]
    rw [List.filter_cons_of_neg (by simp [h])]
    rw [List.filter_filter]
    congr 1
    apply List.filter_congr
    intro a _
    simp [h]
  rw [key]
  refine ⟨rfl, ?_, ?_⟩
  · have hz : List.countP (fun p => p.name == e2.name)
        (reg.filter (fun p => ¬ (p.name = e2.name))) = 0 := by
      rw [List.countP_eq_zero]
      intro a ha
      have := (List.mem_filter.mp ha).2
      simpa using this
    simp [List.countP_cons, hz]
  · rw [List.filter_cons_of_neg (by simp), List.filter_filter]
    apply List.filter_congr
    intro a _
    simp

/-- C5 witness: registering `x → /a` then `x → /b` over a registry that
already holds an unrelated project `y`. -/
theorem registerEntry_last_write_wins_witness :
    (registerEntry (registerEntry [⟨"y", "/y", "api", [], 3000, "t0"⟩]
        ⟨"x", "/a", "api", [], 3001, "t1"⟩)
        ⟨"x", "/b", "api", [], 3002, "t2"⟩).head? =
      some ⟨"x", "/b", "api", [], 3002, "t2"⟩ ∧
    (registerEntry (registerEntry [⟨"y", "/y", "api", [], 3000, "t0"⟩]
        ⟨"x", "/a", "api", [], 3001, "t1"⟩)
        ⟨"x", "/b", "api", [], 3002, "t2"⟩).countP
      (fun p => p.name == "x") = 1 ∧
    (registerEntry (registerEntry [⟨"y", "/y", "api", [], 3000, "t0"⟩]
        ⟨"x", "/a", "api", [], 3001, "t1"⟩)
        ⟨"x", "/b", "api", [], 3002, "t2"⟩).filter
        (fun p => ¬ (p.name = "x")) =
      [⟨"y", "/y", "api", [], 3000, "t0"⟩] := by
  have h := registerEntry_last_write_wins [⟨"y", "/y", "api", [], 3000, "t0"⟩]
    ⟨"x", "/a", "api", [], 3001, "t1"⟩ ⟨"x", "/b", "api", [], 3002, "t2"⟩ rfl
  refine ⟨h.1, ?_, ?_⟩
  · have := h.2.1
    simpa using this
  · have := h.2.2
    simpa using this

/-- C6: a `modify` request whose name matches no registry entry and whose
literal path is not a directory holding a valid config exits with code 1
and a "not found" message, having performed no file write. -/
theorem runModify_unknown_project (name req now : String) (env : ModifyEnv)
    (hfind : env.findResult = none)
    (hdir : env.dirAtNameExists = false ∨ env.hasCfgAtName = false) :
    runModify name req now env =
      .exited 1 ("Project \x22" ++ name ++ "\x22 not found.") [] := by
  rcases hdir with h | h <;> simp [runModify, hfind, h]

/-- C6 witness: `modify "ghost-project"` against an empty world. -/
theorem runModify_unknown_project_witness :
    runModify "ghost-project" "add a route" "t"
        ⟨none, false, false, none, false, none, none, false⟩ =
      .exited 1 "Project \x22ghost-project\x22 not found." [] := by
  have h := runModify_unknown_project "ghost-project" "add a route" "t"
    ⟨none, false, false, none, false, none, none, false⟩ rfl (Or.inl rfl)
  simpa using h

/-- Helper: a list is a leading segment of itself followed by anything. -/
theorem hasPre_append_self (pre s : List Char) : hasPre pre (pre ++ s) = true := by
  induction pre with
  | nil => rfl
  | cons c cs ih => simp [hasPre, ih]

/-- C7 counterexample: with base directory `/a/frontend` (the base
already implies the prefix) and relative path `p = frontend/main.js`, the
patch path `frontend/` ++ `p` is NOT written to the same file as `p`: the
normalization strips only one prefix from the former but strips `p`'s own
leading `frontend/` from the latter. -/
theorem fixerWriteTarget_double_prefix :
    fixerWriteTarget ['/', 'a', '/', 'f', 'r', 'o', 'n', 't', 'e', 'n', 'd']
        (frontendPre ++ (frontendPre ++ ['m', 'a', 'i', 'n', '.', 'j', 's'])) ≠
      fixerWriteTarget ['/', 'a', '/', 'f', 'r', 'o', 'n', 't', 'e', 'n', 'd']
        (frontendPre ++ ['m', 'a', 'i', 'n', '.', 'j', 's']) := by
  decide

/-- C7 amended: for every base directory and every relative path `p`
that does not itself begin with `frontend/` or `backend/`, a patch path
carrying a redundant `frontend/` or `backend/` prefix is written to the
same file as the un-prefixed path `p`. -/
theorem fixerWriteTarget_redundant_prefix (base p : List Char)
    (hf : hasPre frontendPre p = false) (hb : hasPre backendPre p = false) :
    fixerWriteTarget base (frontendPre ++ p) = fixerWriteTarget base p ∧
    fixerWriteTarget base (backendPre ++ p) = fixerWriteTarget base p := by
  have h1 : stripPre frontendPre (frontendPre ++ p) = p := by
    simp [stripPre, hasPre_append_self, List.drop_left]
  have h2 : stripPre backendPre p = p := by
    simp [stripPre, hb]
  have h3 : stripPre frontendPre p = p := by
    simp [stripPre, hf]
  have h4 : stripPre backendPre (backendPre ++ p) = p := by
    simp [stripPre, hasPre_append_self, List.drop_left]
  have h5 : hasPre frontendPre (backendPre ++ p) = false := by
    simp [frontendPre, backendPre, hasPre]
  have h6 : stripPre frontendPre (backendPre ++ p) = backendPre ++ p := by
    simp [stripPre, h5]
  constructor
  · simp [fixerWriteTarget, normalizePatchPath, h1, h2, h3]
  · simp [fixerWriteTarget, normalizePatchPath, h6, h4, h3, h2]

/-- C7 witness: base `/b` and path `m`: both redundant prefixes resolve
to the same file as the plain path. -/
theorem fixerWriteTarget_redundant_prefix_witness :
    hasPre frontendPre ['m'] = false ∧ hasPre backendPre ['m'] = false ∧
    fixerWriteTarget ['/', 'b'] (frontendPre ++ ['m']) =
      fixerWriteTarget ['/', 'b'] ['m'] ∧
    fixerWriteTarget ['/', 'b'] (backendPre ++ ['m']) =
      fixerWriteTarget ['/', 'b'] ['m'] := by
  have h := fixerWriteTarget_redundant_prefix ['/', 'b'] ['m'] (by decide) (by decide)
  exact ⟨by decide, by decide, h.1, h.2⟩

/-- C9 counterexample: with 10 previously stored entries, the history
written by a successful modify is NOT the new entry prepended to all
previous entries — `history.slice(0, 10)` drops the oldest one. -/
theorem modifyHistory_drops_oldest :
    modifyHistoryUpdate (List.replicate 10 ⟨"d", "r", [], "s"⟩)
        ⟨"e", "q", [], "t"⟩ ≠
      ⟨"e", "q", [], "t"⟩ :: List.replicate 10 ⟨"d", "r", [], "s"⟩ := by
  decide

/-- C9 amended: after every successful modify, the stored
`modificationHistory` is the new entry (timestamp, requested change,
files touched, summary) prepended to the previously stored entries and
truncated to the 10 most recent — in particular, with at most 9 prior
entries none is removed — and `updatedAt` is bumped to the current
time. -/
theorem runModify_history_capped (name req now : String) (env : ModifyEnv)
    (e : ProjectEntry) (cfg : ConfigVbs) (r : ModResult)
    (hfind : env.findResult = some e) (hdir : env.entryDirExists = true)
    (hcfg : env.cfgAtEntryDir = some cfg) (hmod : env.modResult = some r)
    (hgo : env.proceed = true) :
    runModify name req now env =
      .finished (r.files.map (fun f => pathJoin e.dir.data f.path))
        (updateConfigVbs cfg
          (modifyHistoryUpdate cfg.modificationHistory (mkHistEntry now req r))
          now) ∧
    (updateConfigVbs cfg
        (modifyHistoryUpdate cfg.modificationHistory (mkHistEntry now req r))
        now).modificationHistory =
      mkHistEntry now req r :: cfg.modificationHistory.take 9 ∧
    (updateConfigVbs cfg
        (modifyHistoryUpdate cfg.modificationHistory (mkHistEntry now req r))
        now).updatedAt = now ∧
    (cfg.modificationHistory.length ≤ 9 →
      (updateConfigVbs cfg
          (modifyHistoryUpdate cfg.modificationHistory (mkHistEntry now req r))
          now).modificationHistory =
        mkHistEntry now req r :: cfg.modificationHistory) := by
  refine ⟨?_, ?_, rfl, ?_⟩
  · simp [runModify, hfind, runModifyWithEntry, hdir, hcfg, hmod, hgo]
  · exact congrArg (mkHistEntry now req r :: ·)
      (rfl : cfg.modificationHistory.take 9 = cfg.modificationHistory.take 9)
  · intro hlen
    show (mkHistEntry now req r :: cfg.modificationHistory).take 10 =
      mkHistEntry now req r :: cfg.modificationHistory
    rw [show (mkHistEntry now req r :: cfg.modificationHistory).take 10 =
        mkHistEntry now req r :: cfg.modificationHistory.take 9 from rfl,
      List.take_of_length_le hlen]

/-- C9 witness: a successful modify over a config with one prior history
entry stores the new entry prepended to it (none removed at this length)
and bumps `updatedAt`. -/
theorem runModify_history_capped_witness :
    runModify "p" "req" "t1"
        ⟨some ⟨"p", "/p", "api", [], 3000, "t0"⟩, false, false, none, true,
          some ⟨"p", "api", [], [⟨"d1", "r1", [], "s1"⟩], "old"⟩,
          some ⟨[⟨['a'], ['b']⟩], "sum", true, false, ""⟩, true⟩ =
      .finished [['/', 'p', '/', 'a']]
        ⟨"p", "api", [],
          [⟨"t1", "req", [['a']], "sum"⟩, ⟨"d1", "r1", [], "s1"⟩], "t1"⟩ := by
  have h := runModify_history_capped "p" "req" "t1"
    ⟨some ⟨"p", "/p", "api", [], 3000, "t0"⟩, false, false, none, true,
      some ⟨"p", "api", [], [⟨"d1", "r1", [], "s1"⟩], "old"⟩,
      some ⟨[⟨['a'], ['b']⟩], "sum", true, false, ""⟩, true⟩
    ⟨"p", "/p", "api", [], 3000, "t0"⟩
    ⟨"p", "api", [], [⟨"d1", "r1", [], "s1"⟩], "old"⟩
    ⟨[⟨['a'], ['b']⟩], "sum", true, false, ""⟩ rfl rfl rfl rfl rfl
  rw [h.1]
  rfl

/-- C10: when the registry file is missing or holds invalid JSON, every
operation treats the registry as empty: `listProjects` returns `[]`,
`findProject` returns null for every name, and `registerProject` writes a
fresh registry holding only the new entry. -/
theorem registry_tolerates_invalid_file (content : Option String)
    (hbad : content = none ∨ ∃ s e, content = some s ∧ parseJSON s = .error e) :
    listProjects content = .ok [] ∧
    (∀ nm, findProject content nm = .ok none) ∧
    (∀ entry, registerProject content entry =
      .ok (.obj [("projects", .arr [entry])])) := by
  have hload : loadRegistry content = .obj [("projects", .arr [])] := by
    rcases hbad with h | ⟨s, e, hs, hp⟩
    · rw [h]
      rfl
    · rw [hs]
      simp [loadRegistry, hp]
  have hlist : listProjects content = .ok [] := by
    simp [listProjects, hload, registryProjects, jsField]
  refine ⟨hlist, fun nm => ?_, fun entry => ?_⟩
  · simp [findProject, hlist]
  · simp [registerProject, hload, registryProjects, jsField, jsSetField]

/-- C10 witness: the invalid registry content `nope`. -/
theorem registry_tolerates_invalid_file_witness :
    parseJSON "nope" = .error "Unexpected token in JSON" ∧
    listProjects (some "nope") = .ok [] ∧
    findProject (some "nope") "x" = .ok none ∧
    registerProject (some "nope") (.obj [("name", .str "x")]) =
      .ok (.obj [("projects", .arr [.obj [("name", .str "x")]])]) := by
  have h := registry_tolerates_invalid_file (some "nope")
    (Or.inr ⟨"nope", "Unexpected token in JSON", rfl, rfl⟩)
  exact ⟨rfl, h.1, h.2.1 "x", h.2.2 _⟩

end BuildMyDotApi

